import Mathlib

/-!
Shallow embedding of `sysstats_windows.go` (go-oled-controller): the
`typeperf` counter source and the `SystemStats` aggregator.

Modelling conventions:
* Go strings are Lean `String`s; the string helpers (`strings.Split`,
  `strings.TrimSuffix`, `strings.TrimLeft`/`TrimRight`) are re-implemented
  over `List Char` exactly as Go defines them.
* `float64` values are modelled as exact rationals (`ℚ`): `strconv.ParseFloat`
  on decimal notation yields the decimal's exact rational value, and the
  division by 100 is exact rational division.
* The two goroutines are modelled as trace functions: a list of resolved
  events (one per loop iteration: which `select`/read outcome occurred)
  is mapped to the ordered list of observable outputs (channel sends, log
  lines, channel closes, a panic).
* A Go runtime panic (the out-of-range slice write) is modelled as `none` /
  a terminal `panicked` trace element.
-/

namespace SysStats

/-- Models Go `strings.Split(s, ",")` over the character list: split at every
comma; the empty input yields one empty field. `acc` holds the current field's
characters in reverse. -/
def splitCommaAux : List Char → List Char → List String
  | [], acc => [String.mk acc.reverse]
  | c :: rest, acc =>
    if c = ',' then String.mk acc.reverse :: splitCommaAux rest []
    else splitCommaAux rest (c :: acc)

/-- Models Go `strings.Split(s, ",")`. -/
def splitComma (s : String) : List String := splitCommaAux s.data []

/-- Models Go `strings.TrimSuffix(line, crlf)` where `crlf` is carriage return
followed by newline: the suffix is removed when present, otherwise the line is
returned unchanged. -/
def trimCRLF (line : String) : String :=
  match line.data.reverse with
  | '\n' :: '\r' :: rest => String.mk rest.reverse
  | _ => line

/-- The counter source's framing of one stdout line into a RawRecord
(`sysstats_windows.go:56`): strip the trailing CRLF, then split on commas. -/
def splitLine (line : String) : List String := splitComma (trimCRLF line)

/-- Models `strings.TrimRight(strings.TrimLeft(field, quote), quote)`
(`sysstats_windows.go:86`): drop every leading and trailing double-quote
character. -/
def trimQuotes (field : String) : String :=
  String.mk (((field.data.dropWhile (fun c => c = '"')).reverse.dropWhile
    (fun c => c = '"')).reverse)

/-- Numeric value of a decimal digit character. -/
def digitVal (c : Char) : Nat := c.toNat - 48

/-- Value of a string of decimal digits, most significant first. -/
def digitsVal (ds : List Char) : Nat := ds.foldl (fun a c => 10 * a + digitVal c) 0

/-- Rational value of a parsed decimal: sign, integer digits, fraction digits,
and a signed decimal exponent. -/
def decimalVal (sign : ℚ) (ip fp : List Char) (ex : ℤ) : ℚ :=
  sign * ((digitsVal ip * 10 ^ fp.length + digitsVal fp : ℚ) / 10 ^ fp.length) * (10 : ℚ) ^ ex

/-- Exponent part of `parseGoFloat`: an optional sign, then at least one digit
and nothing else. -/
def parseExpPart (sign : ℚ) (ip fp : List Char) (rest : List Char) : Option ℚ :=
  let eneg := rest.head? = some '-'
  let rest := if rest.head? = some '-' ∨ rest.head? = some '+' then rest.drop 1 else rest
  let ed := rest.takeWhile Char.isDigit
  let rest := rest.dropWhile Char.isDigit
  if ed = [] ∨ rest ≠ [] then none
  else some (decimalVal sign ip fp (if eneg then -(digitsVal ed : ℤ) else (digitsVal ed : ℤ)))

/-- Models `strconv.ParseFloat(s, 64)` on Go decimal floating-point notation
(optional sign, digits with an optional dot, optional `e`/`E` exponent), with
the value taken exactly as a rational; `none` models a parse error. The
special forms (`inf`, `nan`, hex mantissas, digit-separating underscores) are
outside the decimal data this module receives and are not modelled. -/
def parseGoFloat (s : String) : Option ℚ :=
  let cs := s.data
  let sign : ℚ := if cs.head? = some '-' then -1 else 1
  let cs := if cs.head? = some '-' ∨ cs.head? = some '+' then cs.drop 1 else cs
  let ip := cs.takeWhile Char.isDigit
  let cs := cs.dropWhile Char.isDigit
  let hasDot := cs.head? = some '.'
  let cs := if hasDot then cs.drop 1 else cs
  let fp := if hasDot then cs.takeWhile Char.isDigit else []
  let cs := if hasDot then cs.dropWhile Char.isDigit else cs
  if ip = [] ∧ fp = [] then none
  else
    match cs with
    | [] => some (decimalVal sign ip fp 0)
    | 'e' :: rest => parseExpPart sign ip fp rest
    | 'E' :: rest => parseExpPart sign ip fp rest
    | _ => none

/-- The value the aggregator stores for a non-timestamp field: the parsed
value (0 when parsing fails) divided by 100 (`sysstats_windows.go:86-91`). -/
def fieldVal (f : String) : ℚ := ((parseGoFloat (trimQuotes f)).getD 0) / 100

/-- One pass of `SystemStats`'s per-record loop (`for i, field := range
fields`, `sysstats_windows.go:84-105`), starting at field position `i` with
the current `values` slice and the warnings logged so far. Position 0 (the
timestamp) is skipped; otherwise the field is quote-trimmed and parsed, a
parse failure logs `(i, field)` and substitutes 0, and `values[i-1]` is set to
`value / 100`. A write with `i - 1` out of range is Go's runtime panic,
modelled as `none`. -/
def procGo : List String → Nat → List ℚ → List (Nat × String) → Option (List ℚ × List (Nat × String))
  | [], _, values, warns => some (values, warns)
  | f :: rest, i, values, warns =>
    if i = 0 then
      procGo rest (i + 1) values warns
    else
      match parseGoFloat (trimQuotes f) with
      | some x =>
        if i - 1 < values.length then
          procGo rest (i + 1) (values.set (i - 1) (x / 100)) warns
        else none
      | none =>
        if i - 1 < values.length then
          procGo rest (i + 1) (values.set (i - 1) (0 / 100)) (warns ++ [(i, f)])
        else none

/-- Per-record processing of `SystemStats` (`sysstats_windows.go:83-105`):
`values := make([]float64, 4)` followed by the field loop. Returns the
StatVector to be emitted together with the parse warnings logged, or `none`
for the index-out-of-range panic. -/
def processFields (fields : List String) : Option (List ℚ × List (Nat × String)) :=
  procGo fields 0 (List.replicate 4 0) []

/-- One resolved wait of the aggregator's `select` loop
(`sysstats_windows.go:78-110`): a RawRecord arrived on the `tp` channel, the
`tp` channel was observed closed, or the 10-second timeout fired first. -/
inductive SrcEvent
  | data (fields : List String)
  | closed
  | timeout
deriving DecidableEq

/-- Observable outputs of `SystemStats`, in order: a StatVector sent on
`results`, a parse-warning log line `(field index, raw field)`, the stall log
line, a send on `quit`, the (deferred) close of `results`, and the
out-of-range panic. -/
inductive AggOut
  | stat (v : List ℚ)
  | warn (i : Nat) (f : String)
  | stallLog
  | quitSig
  | closeResults
  | panicked
deriving DecidableEq

/-- The `select` loop of `SystemStats`, one iteration per resolved event.
Observing the closed stream returns from the function, running the deferred
`close(results)`; a timeout logs the stall and sends on `quit`; a record is
processed (warnings logged, then the vector sent), the out-of-range panic
aborting the loop. An exhausted event list leaves the loop blocked in
`select`, so nothing further is emitted. -/
def aggSteps : List SrcEvent → List AggOut
  | [] => []
  | SrcEvent.closed :: _ => [AggOut.closeResults]
  | SrcEvent.timeout :: rest => AggOut.stallLog :: AggOut.quitSig :: aggSteps rest
  | SrcEvent.data fields :: rest =>
    match processFields fields with
    | some (v, ws) => ws.map (fun p => AggOut.warn p.1 p.2) ++ AggOut.stat v :: aggSteps rest
    | none => [AggOut.panicked]

/-- `SystemStats` as a trace (`sysstats_windows.go:63-112`): the priming
zero vector `make([]float64, 4)` is sent on `results` before the loop starts,
then the loop runs on the resolved events. -/
def systemStatsTrace (events : List SrcEvent) : List AggOut :=
  AggOut.stat (List.replicate 4 0) :: aggSteps events

/-- One iteration of `typeperf`'s loop (`sysstats_windows.go:45-58`): the
non-blocking `quit` check fired, a line was read from stdout, or
`ReadString` returned an error (end of stream included). -/
inductive TpEvent
  | quit
  | line (s : String)
  | readErr
deriving DecidableEq

/-- Observable outputs of `typeperf`: a RawRecord sent on `result`, or the
deferred `close(result)`. -/
inductive TpOut
  | record (fields : List String)
  | closeSink
deriving DecidableEq

/-- The read loop of `typeperf` (after the two discarded header lines): a
pending `quit` or a read error ends the loop and the deferred close runs; a
read line is framed with `splitLine` and sent. An exhausted event list leaves
the loop blocked reading, so nothing further is emitted. -/
def tpLoop : List TpEvent → List TpOut
  | [] => []
  | TpEvent.quit :: _ => [TpOut.closeSink]
  | TpEvent.readErr :: _ => [TpOut.closeSink]
  | TpEvent.line s :: rest => TpOut.record (splitLine s) :: tpLoop rest

/-- The whole `typeperf` session as a trace (`sysstats_windows.go:21-59`):
failing to attach the stdout pipe, or failing to start the command, returns
before the loop with only the deferred `close(result)` having run; otherwise
the read loop runs on its resolved events. -/
def typeperfRun (stdoutOk started : Bool) (events : List TpEvent) : List TpOut :=
  if stdoutOk = false then [TpOut.closeSink]
  else if started = false then [TpOut.closeSink]
  else tpLoop events

/-- The TypePerf argument list built by `typeperf` (`sysstats_windows.go:24`):
the counter fields, then the sample-interval flag `-si` and the interval in
whole seconds. -/
def typeperfArgs (fields : List String) (si : Nat) : List String :=
  fields ++ ["-si", toString si]

/-- The four counters `SystemStats` requests, in request order
(`sysstats_windows.go:67-72`). -/
def systemStatsCounters : List String :=
  ["\\Processor(_Total)\\% Processor Time",
   "\\Memory\\% Committed Bytes In Use",
   "\\Paging file(_Total)\\% Usage",
   "\\PhysicalDisk(_Total)\\% Disk Time"]

/-- Models `uint(interval.Seconds())` (`sysstats_windows.go:67`) for a
nonnegative `time.Duration` of `d` nanoseconds: `float64` division by `1e9`
followed by Go's truncating float-to-integer conversion, i.e. `⌊d / 10^9⌋`
(exact for durations in the representable range). -/
def durationTruncSeconds (d : Nat) : Nat := d / 1000000000

/-- Modelled from the spec: a duration of `d` nanoseconds "rounded to whole
seconds", i.e. rounded to the nearest whole number of seconds (half up). This
is the spec-side reading, kept for comparison with the code's
`durationTruncSeconds`. -/
def durationRoundSeconds (d : Nat) : Nat := (d + 500000000) / 1000000000

/-- The warnings the field loop logs when started at position `i`: one
`(index, raw field)` pair for every non-timestamp field whose quote-trimmed
content fails to parse, in field order. -/
def warnsFrom : Nat → List String → List (Nat × String)
  | _, [] => []
  | i, f :: rest =>
    if i ≠ 0 ∧ parseGoFloat (trimQuotes f) = none then (i, f) :: warnsFrom (i + 1) rest
    else warnsFrom (i + 1) rest

/-- Recognizes the quit-channel send in an aggregator trace. -/
def isQuitSig : AggOut → Bool
  | AggOut.quitSig => true
  | _ => false

/-- Recognizes the stall log line in an aggregator trace. -/
def isStallLog : AggOut → Bool
  | AggOut.stallLog => true
  | _ => false

/-- Recognizes the timeout among the aggregator's resolved events. -/
def isTimeout : SrcEvent → Bool
  | SrcEvent.timeout => true
  | _ => false

/-- The raw subprocess line of the round-trip property. -/
def sampleLine : String := "\"20231001120000.000\",\"45.2\",\"60.0\",\"0.0\",\"12.5\"\r\n"

/-- The RawRecord `sampleLine` frames to. -/
def wellFormedRecord : List String :=
  ["\"20231001120000.000\"", "\"45.2\"", "\"60.0\"", "\"0.0\"", "\"12.5\""]

/-- A well-formed RawRecord with three data fields (a timestamp followed by 3
quoted numeric strings). -/
def threeFieldRecord : List String :=
  ["\"20231001120000.000\"", "\"45.2\"", "\"60.0\"", "\"12.5\""]

/-- The malformed RawRecord of the spec: the first data field unparsable. -/
def malformedRecord : List String :=
  ["\"ts\"", "\"abc\"", "\"60.0\"", "\"0.0\"", "\"12.5\""]

/-! ## Structure of the field loop -/

/-- The field loop never changes the length of the values slice. -/
theorem procGo_length (fields : List String) : ∀ (i : Nat) (values : List ℚ)
    (warns : List (Nat × String)) (v : List ℚ) (ws : List (Nat × String)),
    procGo fields i values warns = some (v, ws) → v.length = values.length := by
  induction fields with
  | nil =>
    intro i values warns v ws h
    simp only [procGo, Option.some.injEq, Prod.mk.injEq] at h
    rw [← h.1]
  | cons f rest ih =>
    intro i values warns v ws h
    simp only [procGo] at h
    split at h
    · exact ih _ _ _ _ _ h
    · split at h <;> split at h <;> first
        | (rw [ih _ _ _ _ _ h]; simp)
        | simp at h

/-- The field loop completes without panicking exactly when every write lands
in bounds, i.e. when the last field position `i + length - 1` writes at most
to the end of the values slice. -/
theorem procGo_isSome (fields : List String) : ∀ (i : Nat) (values : List ℚ)
    (warns : List (Nat × String)),
    (procGo fields i values warns).isSome = true ↔
      (fields = [] ∨ i + fields.length ≤ values.length + 1) := by
  induction fields with
  | nil => simp [procGo]
  | cons f rest ih =>
    intro i values warns
    simp only [procGo]
    split
    · next hi =>
      subst hi
      rw [ih]
      constructor
      · rintro (rfl | h)
        · simp
        · simp only [List.length_cons, List.length_nil] at h ⊢
          omega
      · intro h
        rcases h with h | h
        · simp at h
        · simp only [List.length_cons] at h
          rcases rest with _ | ⟨g, grest⟩
          · exact Or.inl rfl
          · exact Or.inr (by simp only [List.length_cons] at h ⊢; omega)
    · next hi =>
      split
      · next x hx =>
        split
        · next hin =>
          rw [ih]
          simp only [List.length_set, List.length_cons]
          constructor
          · rintro (rfl | h) <;> simp <;> omega
          · intro h
            rcases h with h | h
            · simp at h
            · right; omega
        · next hin =>
          simp only [Option.isSome_none, Bool.false_eq_true, false_iff]
          push_neg
          refine ⟨by simp, ?_⟩
          simp only [List.length_cons]
          omega
      · next hx =>
        split
        · next hin =>
          rw [ih]
          simp only [List.length_set, List.length_cons]
          constructor
          · rintro (rfl | h) <;> simp <;> omega
          · intro h
            rcases h with h | h
            · simp at h
            · right; omega
        · next hin =>
          simp only [Option.isSome_none, Bool.false_eq_true, false_iff]
          push_neg
          refine ⟨by simp, ?_⟩
          simp only [List.length_cons]
          omega

/-- Position `k` of the slice the field loop returns: the field at position
`k + 1 - i` of the remaining fields wrote it (quote-trimmed, parsed with 0 on
failure, divided by 100) when such a field exists, and otherwise it keeps the
value the slice held on entry. -/
theorem procGo_getElem (fields : List String) : ∀ (i : Nat) (values : List ℚ)
    (warns : List (Nat × String)) (v : List ℚ) (ws : List (Nat × String)),
    procGo fields i values warns = some (v, ws) → ∀ k, k < values.length →
      v[k]? = if i ≤ k + 1 ∧ k + 1 - i < fields.length then
        some (fieldVal (fields.getD (k + 1 - i) "")) else values[k]? := by
  induction fields with
  | nil =>
    intro i values warns v ws h k hk
    simp only [procGo, Option.some.injEq, Prod.mk.injEq] at h
    simp [← h.1]
  | cons f rest ih =>
    intro i values warns v ws h k hk
    simp only [procGo] at h
    split at h
    · next hi =>
      subst hi
      rw [ih _ _ _ _ _ h k hk]
      by_cases hkr : k < rest.length
      · rw [if_pos (by omega), if_pos (by simp only [List.length_cons]; omega)]
        have hs : k + 1 - 0 = k + 1 := by omega
        have hs2 : k + 1 - (0 + 1) = k := by omega
        rw [hs, hs2, List.getD_cons_succ]
      · rw [if_neg (by omega), if_neg (by simp only [List.length_cons]; omega)]
    · next hi =>
      have hi1 : 1 ≤ i := Nat.one_le_iff_ne_zero.mpr hi
      split at h
      · next x hx =>
        split at h
        · next hin =>
          rw [ih _ _ _ _ _ h k (by simpa using hk)]
          rcases Nat.lt_trichotomy (k + 1) i with hki | hki | hki
          · rw [if_neg (by omega), if_neg (by omega),
              List.getElem?_set_ne (by omega)]
          · rw [if_neg (by omega), if_pos (by simp only [List.length_cons]; omega)]
            have hk0 : k + 1 - i = 0 := by omega
            have hki2 : i - 1 = k := by omega
            rw [hk0, List.getD_cons_zero, hki2] at *
            rw [List.getElem?_set_self hk]
            simp [fieldVal, hx]
          · by_cases hkr : k + 1 - i < rest.length + 1
            · rw [if_pos (by omega), if_pos (by simp only [List.length_cons]; omega)]
              have hs : k + 1 - i = (k + 1 - (i + 1)) + 1 := by omega
              rw [hs, List.getD_cons_succ]
            · rw [if_neg (by omega), if_neg (by simp only [List.length_cons]; omega),
                List.getElem?_set_ne (by omega)]
        · simp at h
      · next hx =>
        split at h
        · next hin =>
          rw [ih _ _ _ _ _ h k (by simpa using hk)]
          rcases Nat.lt_trichotomy (k + 1) i with hki | hki | hki
          · rw [if_neg (by omega), if_neg (by omega),
              List.getElem?_set_ne (by omega)]
          · rw [if_neg (by omega), if_pos (by simp only [List.length_cons]; omega)]
            have hk0 : k + 1 - i = 0 := by omega
            have hki2 : i - 1 = k := by omega
            rw [hk0, List.getD_cons_zero, hki2] at *
            rw [List.getElem?_set_self hk]
            simp [fieldVal, hx]
          · by_cases hkr : k + 1 - i < rest.length + 1
            · rw [if_pos (by omega), if_pos (by simp only [List.length_cons]; omega)]
              have hs : k + 1 - i = (k + 1 - (i + 1)) + 1 := by omega
              rw [hs, List.getD_cons_succ]
            · rw [if_neg (by omega), if_neg (by simp only [List.length_cons]; omega),
                List.getElem?_set_ne (by omega)]
        · simp at h

/-- The warnings the field loop has logged when it returns are those on entry
followed by one per failing non-timestamp field, in order. -/
theorem procGo_warns (fields : List String) : ∀ (i : Nat) (values : List ℚ)
    (warns : List (Nat × String)) (v : List ℚ) (ws : List (Nat × String)),
    procGo fields i values warns = some (v, ws) → ws = warns ++ warnsFrom i fields := by
  induction fields with
  | nil =>
    intro i values warns v ws h
    simp only [procGo, Option.some.injEq, Prod.mk.injEq] at h
    simp [← h.2, warnsFrom]
  | cons f rest ih =>
    intro i values warns v ws h
    simp only [procGo] at h
    split at h
    · next hi =>
      subst hi
      rw [ih _ _ _ _ _ h]
      simp [warnsFrom]
    · next hi =>
      split at h
      · next x hx =>
        split at h
        · rw [ih _ _ _ _ _ h]
          simp [warnsFrom, hi, hx]
        · simp at h
      · next hx =>
        split at h
        · rw [ih _ _ _ _ _ h]
          simp [warnsFrom, hi, hx]
        · simp at h

/-- Every StatVector the per-record processing returns has length 4. -/
theorem processFields_length (fields : List String) (v : List ℚ)
    (ws : List (Nat × String)) (h : processFields fields = some (v, ws)) :
    v.length = 4 := by
  have := procGo_length fields 0 (List.replicate 4 0) [] v ws h
  simpa using this

/-- The per-record processing completes without the out-of-range panic exactly
when the record has at most 5 fields (a timestamp plus at most 4 data
fields). -/
theorem processFields_isSome (fields : List String) :
    (processFields fields).isSome = true ↔ fields.length ≤ 5 := by
  rw [processFields, procGo_isSome]
  simp only [List.length_replicate]
  constructor
  · rintro (rfl | h)
    · simp
    · omega
  · intro h
    rcases fields with _ | ⟨f, rest⟩
    · exact Or.inl rfl
    · exact Or.inr (by simpa using h)

/-- Position `k` of a returned StatVector: the value of field `k + 1` when the
record has one, and the initial 0.0 of `make([]float64, 4)` otherwise. -/
theorem processFields_getElem (fields : List String) (v : List ℚ)
    (ws : List (Nat × String)) (h : processFields fields = some (v, ws))
    (k : Nat) (hk : k < 4) :
    v[k]? = if k + 1 < fields.length then some (fieldVal (fields.getD (k + 1) ""))
      else some 0 := by
  have := procGo_getElem fields 0 (List.replicate 4 0) [] v ws h k (by simpa using hk)
  rw [this]
  by_cases hkf : k + 1 < fields.length
  · rw [if_pos (by omega), if_pos hkf]
    have hs : k + 1 - 0 = k + 1 := by omega
    rw [hs]
  · rw [if_neg (by omega), if_neg hkf, List.getElem?_replicate, if_pos hk]

/-- The warnings of the per-record processing are exactly `warnsFrom 0`. -/
theorem processFields_warns (fields : List String) (v : List ℚ)
    (ws : List (Nat × String)) (h : processFields fields = some (v, ws)) :
    ws = warnsFrom 0 fields := by
  simpa using procGo_warns fields 0 (List.replicate 4 0) [] v ws h

/-- A stretch of fields that all parse contributes no warnings, wherever it
starts. -/
theorem warnsFrom_eq_nil (l : List String)
    (hok : ∀ f ∈ l, (parseGoFloat (trimQuotes f)).isSome = true) :
    ∀ c, warnsFrom c l = [] := by
  induction l with
  | nil => intro c; simp [warnsFrom]
  | cons f rest ih =>
    intro c
    have hf := hok f (by simp)
    have hrest : ∀ g ∈ rest, (parseGoFloat (trimQuotes g)).isSome = true :=
      fun g hg => hok g (by simp [hg])
    simp only [warnsFrom]
    rw [if_neg (by simp [Option.isSome_iff_ne_none] at hf; simp [hf])]
    exact ih hrest _

/-- When exactly one field at absolute position `i ≥ 1` fails to parse, the
warnings from offset `b ≤ i` name exactly that field. -/
theorem warnsFrom_single (l : List String) : ∀ (b i : Nat), 1 ≤ i → b ≤ i →
    i - b < l.length →
    parseGoFloat (trimQuotes (l.getD (i - b) "")) = none →
    (∀ m, m < l.length → b + m ≠ i → b + m = 0 ∨
      (parseGoFloat (trimQuotes (l.getD m ""))).isSome = true) →
    warnsFrom b l = [(i, l.getD (i - b) "")] := by
  induction l with
  | nil =>
    intro b i _ _ h
    simp at h
  | cons f rest ih =>
    intro b i h1 hb hlt hfail hok
    by_cases hbi : b = i
    · subst hbi
      have h0 : b - b = 0 := by omega
      rw [h0, List.getD_cons_zero] at hfail ⊢
      simp only [warnsFrom]
      rw [if_pos ⟨by omega, hfail⟩]
      have hrest : ∀ g ∈ rest, (parseGoFloat (trimQuotes g)).isSome = true := by
        intro g hg
        obtain ⟨m, hm, rfl⟩ := List.getElem_of_mem hg
        have := hok (m + 1) (by simp only [List.length_cons]; omega)
          (by omega)
        rcases this with h | h
        · omega
        · rw [List.getD_cons_succ] at h
          rwa [List.getD_eq_getElem _ _ hm] at h
      rw [warnsFrom_eq_nil rest hrest]
    · have hbi2 : b < i := by omega
      have hsub : i - b = (i - (b + 1)) + 1 := by omega
      rw [hsub, List.getD_cons_succ] at hfail ⊢
      simp only [warnsFrom]
      have hskip : ¬(b ≠ 0 ∧ parseGoFloat (trimQuotes f) = none) := by
        by_cases hb0 : b = 0
        · simp [hb0]
        · have := hok 0 (by simp) (by omega)
          rcases this with h | h
          · omega
          · rw [List.getD_cons_zero] at h
            rw [Option.isSome_iff_ne_none] at h
            simp [h]
      rw [if_neg hskip]
      refine ih (b + 1) i h1 (by omega) (by simp only [List.length_cons] at hlt; omega)
        hfail ?_
      intro m hm hmi
      have := hok (m + 1) (by simp only [List.length_cons]; omega) (by omega)
      rcases this with h | h
      · omega
      · rw [List.getD_cons_succ] at h
        exact Or.inr h

/-! ## Claims -/

/-- C1 (amended): for every RawRecord whose `N + 1` fields (a timestamp
followed by `N` quoted numeric strings) are all well-formed, with `N ≤ 4`, the
StatVector emitted by the aggregator for that record has length exactly 4
(the fixed counter count, not `N`), and the value at position `k` for
`0 ≤ k < N` equals the parsed value of field `k + 1` divided by 100, with no
warning logged. -/
theorem processFields_wellFormed (fields : List String) (hlen : fields.length ≤ 5)
    (hwf : ∀ f ∈ fields.tail, (parseGoFloat (trimQuotes f)).isSome = true) :
    ∃ v, processFields fields = some (v, []) ∧ v.length = 4 ∧
      ∀ k, k + 1 < fields.length →
        ∃ q, parseGoFloat (trimQuotes (fields.getD (k + 1) "")) = some q ∧
          v[k]? = some (q / 100) := by
  have hsome := (processFields_isSome fields).mpr hlen
  obtain ⟨⟨v, ws⟩, h⟩ := Option.isSome_iff_exists.mp hsome
  have hws : ws = warnsFrom 0 fields := processFields_warns fields v ws h
  have hnil : warnsFrom 0 fields = [] := by
    rcases fields with _ | ⟨t, rest⟩
    · rfl
    · have hstep : warnsFrom 0 (t :: rest) = warnsFrom 1 rest := by
        rw [warnsFrom, if_neg]
        simp
      rw [hstep]
      exact warnsFrom_eq_nil rest (by simpa using hwf) 1
  refine ⟨v, by rw [h, hws, hnil], processFields_length fields v ws h, ?_⟩
  intro k hk
  rcases fields with _ | ⟨t, rest⟩
  · simp at hk
  · simp only [List.length_cons] at hk
    have hkr : k < rest.length := by omega
    have hr5 : rest.length ≤ 4 := by
      simp only [List.length_cons] at hlen
      omega
    have hmem : rest.getD k "" ∈ (t :: rest).tail := by
      simp only [List.tail_cons]
      rw [List.getD_eq_getElem rest "" hkr]
      exact List.getElem_mem hkr
    obtain ⟨q, hq⟩ := Option.isSome_iff_exists.mp (hwf (rest.getD k "") hmem)
    refine ⟨q, by rwa [List.getD_cons_succ], ?_⟩
    have hg := processFields_getElem _ v ws h k (by omega)
    rw [hg, if_pos (by simp only [List.length_cons]; omega), List.getD_cons_succ]
    simp only [fieldVal]
    rw [hq]
    rfl

/-- C1 (witness): the amended statement at the concrete well-formed record
with four data fields. -/
theorem processFields_wellFormed_witness :
    ∃ v, processFields wellFormedRecord = some (v, []) ∧ v.length = 4 ∧
      ∀ k, k + 1 < wellFormedRecord.length →
        ∃ q, parseGoFloat (trimQuotes (wellFormedRecord.getD (k + 1) "")) = some q ∧
          v[k]? = some (q / 100) :=
  processFields_wellFormed wellFormedRecord (by decide) (by decide)

/-- C1 (counterexample): a well-formed RawRecord with `N = 3` data fields
(all three parse) is processed to a StatVector of length 4, not `N = 3`: the
emitted length does not equal the data-field count. -/
theorem processFields_threeField_counterexample :
    (parseGoFloat (trimQuotes "\"45.2\"")).isSome = true ∧
    (parseGoFloat (trimQuotes "\"60.0\"")).isSome = true ∧
    (parseGoFloat (trimQuotes "\"12.5\"")).isSome = true ∧
    threeFieldRecord.length - 1 = 3 ∧
    (processFields threeFieldRecord).map (fun p => p.1.length) = some 4 ∧
    (processFields threeFieldRecord).map (fun p => p.1.length) ≠
      some (threeFieldRecord.length - 1) := by
  refine ⟨rfl, rfl, rfl, rfl, by decide, by decide⟩

/-- C2: feeding the single raw subprocess line
`"20231001120000.000","45.2","60.0","0.0","12.5"` (CRLF-terminated) through
the line-splitting step and the aggregator's per-record processing yields the
StatVector `[0.452, 0.600, 0.000, 0.125]`. -/
theorem sampleLine_roundTrip :
    splitLine sampleLine = wellFormedRecord ∧
    processFields wellFormedRecord =
      some ([452 / 1000, 600 / 1000, 0, 125 / 1000], []) ∧
    aggSteps [SrcEvent.data (splitLine sampleLine)] =
      [AggOut.stat [452 / 1000, 600 / 1000, 0, 125 / 1000]] := by
  have h2 : processFields wellFormedRecord =
      some ([decimalVal 1 ['4', '5'] ['2'] 0 / 100, decimalVal 1 ['6', '0'] ['0'] 0 / 100,
             decimalVal 1 ['0'] ['0'] 0 / 100, decimalVal 1 ['1', '2'] ['5'] 0 / 100], []) := rfl
  have h2' : processFields wellFormedRecord =
      some ([452 / 1000, 600 / 1000, 0, 125 / 1000], []) := by
    rw [h2]
    norm_num [decimalVal, show digitsVal ['4', '5'] = 45 from rfl,
      show digitsVal ['2'] = 2 from rfl, show digitsVal ['6', '0'] = 60 from rfl,
      show digitsVal ['0'] = 0 from rfl, show digitsVal ['1', '2'] = 12 from rfl,
      show digitsVal ['5'] = 5 from rfl]
  refine ⟨rfl, h2', ?_⟩
  have h1 : splitLine sampleLine = wellFormedRecord := rfl
  simp [aggSteps, h1, h2']

/-- C3: for every RawRecord (of at most 5 fields, so that processing
completes) in which exactly one non-timestamp field `i` fails numeric
parsing, the emitted StatVector has exactly 0.0 at position `i - 1`, every
other position backed by a field equals its parsed value divided by 100, and
exactly one warning naming field index `i` (with its raw content) is
logged. -/
theorem processFields_singleFailure (fields : List String) (hlen : fields.length ≤ 5)
    (i : Nat) (hi1 : 1 ≤ i) (hi2 : i < fields.length)
    (hfail : parseGoFloat (trimQuotes (fields.getD i "")) = none)
    (hok : ∀ j, j < fields.length → 1 ≤ j → j ≠ i →
      (parseGoFloat (trimQuotes (fields.getD j ""))).isSome = true) :
    ∃ v, processFields fields = some (v, [(i, fields.getD i "")]) ∧
      v[i - 1]? = some 0 ∧
      ∀ k, k + 1 < fields.length → k + 1 ≠ i →
        ∃ q, parseGoFloat (trimQuotes (fields.getD (k + 1) "")) = some q ∧
          v[k]? = some (q / 100) := by
  have hsome := (processFields_isSome fields).mpr hlen
  obtain ⟨⟨v, ws⟩, h⟩ := Option.isSome_iff_exists.mp hsome
  have hws : ws = warnsFrom 0 fields := processFields_warns fields v ws h
  have hsingle : warnsFrom 0 fields = [(i, fields.getD (i - 0) "")] := by
    refine warnsFrom_single fields 0 i hi1 (by omega) (by simpa using hi2)
      (by simpa using hfail) ?_
    intro m hm hmi
    by_cases hm0 : m = 0
    · exact Or.inl (by omega)
    · exact Or.inr (hok m hm (by omega) (by omega))
  rw [Nat.sub_zero] at hsingle
  have h4 : fields.length ≤ 5 := hlen
  refine ⟨v, by rw [h, hws, hsingle], ?_, ?_⟩
  · have hg := processFields_getElem fields v ws h (i - 1) (by omega)
    have hs : i - 1 + 1 = i := by omega
    rw [hs] at hg
    rw [hg, if_pos hi2]
    simp only [fieldVal]
    rw [hfail]
    norm_num
  · intro k hk hki
    obtain ⟨q, hq⟩ := Option.isSome_iff_exists.mp (hok (k + 1) hk (by omega) hki)
    refine ⟨q, hq, ?_⟩
    have hg := processFields_getElem fields v ws h k (by omega)
    rw [hg, if_pos hk]
    simp only [fieldVal]
    rw [hq]
    rfl

/-- C3 (witness): the concrete malformed record of the spec,
`"ts","abc","60.0","0.0","12.5"`, yields `[0.0, 0.600, 0.000, 0.125]` with
one warning naming field index 1. -/
theorem processFields_singleFailure_witness :
    ∃ v, processFields malformedRecord = some (v, [(1, "\"abc\"")]) ∧
      v[0]? = some 0 ∧
      ∀ k, k + 1 < malformedRecord.length → k + 1 ≠ 1 →
        ∃ q, parseGoFloat (trimQuotes (malformedRecord.getD (k + 1) "")) = some q ∧
          v[k]? = some (q / 100) :=
  processFields_singleFailure malformedRecord (by decide) 1 (by decide) (by decide)
    (by rfl) (by decide)

/-- C4: for every invocation of the aggregator entry point, the first value
delivered on the results channel is the all-zero vector of length 4, emitted
structurally before the loop that waits for subprocess data — so it is
delivered whatever the subprocess later does. -/
theorem systemStats_primingZero (events : List SrcEvent) :
    systemStatsTrace events = AggOut.stat (List.replicate 4 0) :: aggSteps events ∧
    (systemStatsTrace events).head? = some (AggOut.stat (List.replicate 4 0)) ∧
    List.replicate 4 (0 : ℚ) = [0, 0, 0, 0] := ⟨rfl, rfl, rfl⟩

/-- C5 (amended): the whole-seconds value placed after the `-si` flag in the
subprocess argument list equals the requested duration (in nanoseconds)
truncated — not rounded — to whole seconds. -/
theorem typeperf_intervalArg (d : Nat) :
    (typeperfArgs systemStatsCounters (durationTruncSeconds d))[4]? = some "-si" ∧
    (typeperfArgs systemStatsCounters (durationTruncSeconds d))[5]? =
      some (toString (d / 1000000000)) ∧
    (typeperfArgs systemStatsCounters (durationTruncSeconds d)).getLast? =
      some (toString (d / 1000000000)) := ⟨rfl, rfl, rfl⟩

/-- C5 (counterexample): for a requested interval of 1.9 seconds
(1900000000 ns) the code passes `1` to the subprocess, while rounding to
whole seconds gives `2`: the interval value is truncated, not rounded. -/
theorem typeperf_intervalArg_counterexample :
    durationTruncSeconds 1900000000 = 1 ∧
    durationRoundSeconds 1900000000 = 2 ∧
    typeperfArgs systemStatsCounters (durationTruncSeconds 1900000000) =
      systemStatsCounters ++ ["-si", "1"] ∧
    durationTruncSeconds 1900000000 ≠ durationRoundSeconds 1900000000 :=
  ⟨rfl, rfl, rfl, by decide⟩

/-- C6: if attaching to the subprocess's stdout fails, or starting the
subprocess fails, the counter source emits zero records and closes its sink
immediately — whatever events would have followed. -/
theorem typeperf_startupFailure (stdoutOk started : Bool) (events : List TpEvent)
    (h : stdoutOk = false ∨ started = false) :
    typeperfRun stdoutOk started events = [TpOut.closeSink] ∧
    ∀ fs, TpOut.record fs ∉ typeperfRun stdoutOk started events := by
  have hrun : typeperfRun stdoutOk started events = [TpOut.closeSink] := by
    rcases h with h | h
    · subst h
      rfl
    · subst h
      cases stdoutOk <;> rfl
  refine ⟨hrun, ?_⟩
  intro fs
  rw [hrun]
  simp

/-- C6 (witness): a failed stdout attachment with lines pending produces only
the sink close. -/
theorem typeperf_startupFailure_witness :
    typeperfRun false true [TpEvent.line "x"] = [TpOut.closeSink] ∧
    ∀ fs, TpOut.record fs ∉ typeperfRun false true [TpEvent.line "x"] :=
  typeperf_startupFailure false true [TpEvent.line "x"] (Or.inl rfl)

/-- In an aggregator loop trace, the close of the results channel is always
the last element: nothing is emitted after it. -/
theorem aggSteps_closeResults_last (events : List SrcEvent) :
    ∀ i, (aggSteps events)[i]? = some AggOut.closeResults →
      (aggSteps events).length = i + 1 := by
  induction events with
  | nil =>
    intro i hi
    simp [aggSteps] at hi
  | cons e rest ih =>
    cases e with
    | closed =>
      intro i hi
      match i with
      | 0 => rfl
      | n + 1 => simp [aggSteps] at hi
    | timeout =>
      intro i hi
      match i with
      | 0 => simp [aggSteps] at hi
      | 1 => simp [aggSteps] at hi
      | n + 2 =>
        have := ih n (by simpa [aggSteps] using hi)
        simp only [aggSteps, List.length_cons, this]
    | data fs =>
      intro i hi
      rcases hpf : processFields fs with _ | ⟨v, ws⟩
      · simp only [aggSteps, hpf] at hi ⊢
        match i with
        | 0 => simp at hi
        | n + 1 => simp at hi
      · simp only [aggSteps, hpf] at hi ⊢
        by_cases hiw : i < (ws.map (fun p => AggOut.warn p.1 p.2)).length
        · rw [List.getElem?_append_left hiw, List.getElem?_map] at hi
          rcases hw : (ws[i]? : Option (Nat × String)) with _ | p
          · rw [hw] at hi
            simp at hi
          · rw [hw] at hi
            simp at hi
        · push_neg at hiw
          rw [List.getElem?_append_right hiw] at hi
          rcases hd : i - (ws.map (fun p => AggOut.warn p.1 p.2)).length with _ | n
          · rw [hd] at hi
            simp at hi
          · rw [hd] at hi
            have hlen := ih n (by simpa using hi)
            simp only [List.length_append, List.length_cons, hlen]
            simp only [List.length_map] at hiw hd ⊢
            omega

/-- C7: once the counter source's record stream is observed closed, the
aggregator closes the results channel in that very scheduling step, and no
output — in particular no StatVector — ever follows the close in a trace. -/
theorem systemStats_closeOnStreamClose :
    (∀ rest, aggSteps (SrcEvent.closed :: rest) = [AggOut.closeResults]) ∧
    (∀ events i, (systemStatsTrace events)[i]? = some AggOut.closeResults →
      (systemStatsTrace events).length = i + 1) := by
  refine ⟨fun rest => rfl, ?_⟩
  intro events i hi
  match i with
  | 0 => simp [systemStatsTrace] at hi
  | n + 1 =>
    have := aggSteps_closeResults_last events n (by simpa [systemStatsTrace] using hi)
    simp only [systemStatsTrace, List.length_cons, this]

/-- C8: as long as the stream stays open and no record panics, every resolved
timeout — and nothing else — logs one stall and sends exactly one
cancellation signal on `quit`: once per stall. -/
theorem systemStats_stallSignals (events : List SrcEvent)
    (hclosed : SrcEvent.closed ∉ events)
    (hsafe : ∀ fs, SrcEvent.data fs ∈ events → fs.length ≤ 5) :
    (aggSteps events).countP isStallLog = events.countP isTimeout ∧
    (aggSteps events).countP isQuitSig = events.countP isTimeout := by
  induction events with
  | nil => exact ⟨rfl, rfl⟩
  | cons e rest ih =>
    have hclosed' : SrcEvent.closed ∉ rest := fun hr => hclosed (by simp [hr])
    have hsafe' : ∀ fs, SrcEvent.data fs ∈ rest → fs.length ≤ 5 :=
      fun fs hfs => hsafe fs (by simp [hfs])
    obtain ⟨ih1, ih2⟩ := ih hclosed' hsafe'
    cases e with
    | closed => exact absurd (by simp) hclosed
    | timeout =>
      constructor
      · simp only [aggSteps, List.countP_cons, ih1, isStallLog, isQuitSig, isTimeout]
        simp
      · simp only [aggSteps, List.countP_cons, ih2, isStallLog, isQuitSig, isTimeout]
        simp
    | data fs =>
      have hlen : fs.length ≤ 5 := hsafe fs (by simp)
      obtain ⟨⟨v, ws⟩, heq⟩ :=
        Option.isSome_iff_exists.mp ((processFields_isSome fs).mpr hlen)
      constructor
      · simp only [aggSteps, heq, List.countP_append, List.countP_cons, List.countP_map,
          ih1, isTimeout]
        have hzero : ws.countP (isStallLog ∘ fun p => AggOut.warn p.1 p.2) = 0 := by
          simp [Function.comp_def, isStallLog]
        simp [hzero, isStallLog]
      · simp only [aggSteps, heq, List.countP_append, List.countP_cons, List.countP_map,
          ih2, isTimeout]
        have hzero : ws.countP (isQuitSig ∘ fun p => AggOut.warn p.1 p.2) = 0 := by
          simp [Function.comp_def, isQuitSig]
        simp [hzero, isQuitSig]

/-- C8 (witness): two stalls in a row log two stalls and send two
cancellation signals. -/
theorem systemStats_stallSignals_witness :
    (aggSteps [SrcEvent.timeout, SrcEvent.timeout]).countP isStallLog =
      ([SrcEvent.timeout, SrcEvent.timeout] : List SrcEvent).countP isTimeout ∧
    (aggSteps [SrcEvent.timeout, SrcEvent.timeout]).countP isQuitSig =
      ([SrcEvent.timeout, SrcEvent.timeout] : List SrcEvent).countP isTimeout :=
  systemStats_stallSignals [SrcEvent.timeout, SrcEvent.timeout] (by decide)
    (by intro fs hfs; simp at hfs)

/-- C9: the per-record loop writes field `i` to output index `i - 1` of the
fixed 4-slot vector; this stays in bounds exactly for records of at most 5
fields, and a record with 6 or more fields hits the out-of-range runtime
panic (no StatVector is produced). -/
theorem processFields_inBounds_iff (fields : List String) :
    ((processFields fields).isSome = true ↔ fields.length ≤ 5) ∧
    (6 ≤ fields.length → processFields fields = none) := by
  refine ⟨processFields_isSome fields, fun h6 => ?_⟩
  have := (processFields_isSome fields).not
  rw [Option.not_isSome_iff_eq_none] at this
  exact this.mpr (by omega)

/-- Every StatVector inside an aggregator loop trace has length 4. -/
theorem aggSteps_stat_length (events : List SrcEvent) :
    ∀ v, AggOut.stat v ∈ aggSteps events → v.length = 4 := by
  induction events with
  | nil => simp [aggSteps]
  | cons e rest ih =>
    cases e with
    | closed =>
      intro v hv
      simp [aggSteps] at hv
    | timeout =>
      intro v hv
      simp only [aggSteps, List.mem_cons] at hv
      rcases hv with hv | hv | hv
      · simp at hv
      · simp at hv
      · exact ih v hv
    | data fs =>
      intro v hv
      rcases hpf : processFields fs with _ | ⟨v', ws'⟩
      · simp only [aggSteps, hpf] at hv
        simp at hv
      · simp only [aggSteps, hpf] at hv
        rw [List.mem_append] at hv
        rcases hv with hv | hv
        · obtain ⟨p, _, hp⟩ := List.mem_map.mp hv
          simp at hp
        · rcases List.mem_cons.mp hv with hv | hv
          · obtain rfl : v = v' := by injection hv
            exact processFields_length fs _ _ hpf
          · exact ih v hv

/-- C10: every vector sent on the results channel — the initial priming
vector and every per-record vector — has length exactly 4, whatever events
the subprocess produced. -/
theorem systemStats_statVectors_length (events : List SrcEvent) (v : List ℚ)
    (h : AggOut.stat v ∈ systemStatsTrace events) : v.length = 4 := by
  rcases List.mem_cons.mp h with hv | hv
  · obtain rfl : v = List.replicate 4 0 := by injection hv
    simp
  · exact aggSteps_stat_length events v hv

/-- C10 (witness): the priming vector of a trace with no events has
length 4. -/
theorem systemStats_statVectors_length_witness :
    (List.replicate 4 (0 : ℚ)).length = 4 :=
  systemStats_statVectors_length [] (List.replicate 4 0)
    (by simp [systemStatsTrace, aggSteps])

end SysStats
